import Mathlib

/-
Shallow embedding of the buffer-pool core of this repository:
  src/buffer/lru_k_replacer.cpp   (LRUKReplacer)
  src/buffer/buffer_pool_manager.cpp  (BufferPoolManager)

Modelling conventions:
  - size_t counters (timestamps, curr_size_) are modelled as Nat.  In the
    C++ they are 64-bit; wraparound would need 2^64 recorded accesses or a
    decrement of a zero counter, and the latter is excluded by the
    evictable-count invariant proved below, so overflow is not modelled.
  - std::map<frame_id_t, LRUKNode> node_store_ is modelled as an
    association list with unique keys (the uniqueness is part of the
    well-formedness predicates and is preserved by every operation).
  - std::list<size_t> history_ is a Lean list with the OLDEST entry at the
    head: push_back appends at the tail, pop_front drops the head,
    front() reads the head.
  - C++ exceptions (std::out_of_range, std::logic_error) are modelled by
    returning `some err` together with the state as it stands when the
    throw happens (all the throws in the source happen before any
    mutation of the object).
  - std::numeric_limits<size_t>::max(), used by Evict as the infinite
    k-distance sentinel, is the literal 2^64 - 1.
-/

namespace BusTub

/-- Numeric sentinel std::numeric_limits of size_t .max() used by Evict as
the k-distance of a node with fewer than k recorded accesses. -/
def SIZE_MAX : Nat := 2 ^ 64 - 1

/-- Errors thrown by the replacer: std::out_of_range and std::logic_error
(the spec names them OutOfRange and InvalidState). -/
inductive RepErr : Type
  | outOfRange : RepErr
  | invalidState : RepErr
deriving DecidableEq, Repr

/-! Association-list primitives standing for the std::map operations. -/

/-- Lookup of a key: std::map::find / count. -/
def alookup {α β : Type} [DecidableEq α] : List (α × β) → α → Option β
  | [], _ => none
  | (key, v) :: rest, x => if key = x then some v else alookup rest x

/-- Insert-or-replace at a key: std::map::insert / operator[] assignment.
An absent key is appended at the tail; which position a fresh key takes
does not affect any property proved below. -/
def aupsert {α β : Type} [DecidableEq α] : List (α × β) → α → β → List (α × β)
  | [], x, v => [(x, v)]
  | (key, w) :: rest, x, v =>
    if key = x then (x, v) :: rest else (key, w) :: aupsert rest x v

/-- Removal of a key: std::map::erase. -/
def aerase {α β : Type} [DecidableEq α] : List (α × β) → α → List (α × β)
  | [], _ => []
  | (key, w) :: rest, x => if key = x then rest else (key, w) :: aerase rest x

/-- Keys of an association list. -/
def akeys {α β : Type} (l : List (α × β)) : List α := l.map Prod.fst

/-- LRUKNode: the bounded access history (oldest first) and the
evictability flag.  The struct lives in the header, which is not among the
repository files here; `LRUKNode{}` value-initialisation gives an empty
history and, per the spec (record_access does not change evictability and
frames become evictable only through set_evictable), a false flag. -/
structure LRUKNode where
  history : List Nat
  is_evictable : Bool
deriving DecidableEq, Repr

/-- LRUKReplacer state: node_store_, current_timestamp_, curr_size_,
replacer_size_ and k_. -/
structure LRUKReplacer where
  node_store : List (Nat × LRUKNode)
  current_timestamp : Nat
  curr_size : Nat
  replacer_size : Nat
  k : Nat
deriving DecidableEq, Repr

/-- Count of nodes whose is_evictable flag is true. -/
def countEvictable (l : List (Nat × LRUKNode)) : Nat :=
  (l.filter fun p => p.2.is_evictable).length

/-- LRUKReplacer::Size. -/
def LRUKReplacer.size (r : LRUKReplacer) : Nat := r.curr_size

/-- LRUKReplacer::RecordAccess (lru_k_replacer.cpp lines 52-67): throw
out_of_range when the frame id is out of range; otherwise create a node if
the frame is unknown, else pop the front of the history when it already
holds at least k entries; finally push the current timestamp at the back
and advance the timestamp. -/
def LRUKReplacer.recordAccess (r : LRUKReplacer) (fid : Nat) :
    Option RepErr × LRUKReplacer :=
  if r.replacer_size ≤ fid then (some RepErr.outOfRange, r)
  else
    let store1 :=
      match alookup r.node_store fid with
      | none => aupsert r.node_store fid { history := [], is_evictable := false }
      | some node =>
        if r.k ≤ node.history.length then
          aupsert r.node_store fid { node with history := node.history.drop 1 }
        else r.node_store
    let cur := (alookup store1 fid).getD { history := [], is_evictable := false }
    let store2 :=
      aupsert store1 fid { cur with history := cur.history ++ [r.current_timestamp] }
    (none, { r with node_store := store2, current_timestamp := r.current_timestamp + 1 })

/-- Formulation of record_access written from the words of the spec:
append the current timestamp, then if the history now exceeds k entries
drop the oldest. -/
def recordAccessSpec (r : LRUKReplacer) (fid : Nat) :
    Option RepErr × LRUKReplacer :=
  if r.replacer_size ≤ fid then (some RepErr.outOfRange, r)
  else
    let node := (alookup r.node_store fid).getD { history := [], is_evictable := false }
    let hist := node.history ++ [r.current_timestamp]
    let hist := if r.k < hist.length then hist.drop 1 else hist
    (none, { r with
      node_store := aupsert r.node_store fid { node with history := hist },
      current_timestamp := r.current_timestamp + 1 })

/-- LRUKReplacer::SetEvictable (lines 69-84): throw out_of_range when the
frame id is out of range or untracked; when the flag differs from the
stored one, adjust curr_size_ and store the flag. -/
def LRUKReplacer.setEvictable (r : LRUKReplacer) (fid : Nat) (flag : Bool) :
    Option RepErr × LRUKReplacer :=
  if r.replacer_size ≤ fid then (some RepErr.outOfRange, r)
  else
    match alookup r.node_store fid with
    | none => (some RepErr.outOfRange, r)
    | some node =>
      if flag = node.is_evictable then (none, r)
      else
        (none, { r with
          node_store := aupsert r.node_store fid { node with is_evictable := flag },
          curr_size := if flag then r.curr_size + 1 else r.curr_size - 1 })

/-- LRUKReplacer::Remove (lines 86-106): throw out_of_range when the frame
id is out of range; no-op when the frame is untracked; throw logic_error
when the node is not evictable; otherwise erase the node and decrement
curr_size_. -/
def LRUKReplacer.remove (r : LRUKReplacer) (fid : Nat) :
    Option RepErr × LRUKReplacer :=
  if r.replacer_size ≤ fid then (some RepErr.outOfRange, r)
  else
    match alookup r.node_store fid with
    | none => (none, r)
    | some node =>
      if node.is_evictable = false then (some RepErr.invalidState, r)
      else
        (none, { r with
          node_store := aerase r.node_store fid,
          curr_size := r.curr_size - 1 })

/-- Numeric k-distance exactly as Evict computes it: the SIZE_MAX sentinel
for a node with fewer than k accesses, current_timestamp_ minus the front
of the history otherwise. -/
def kdistOf (r : LRUKReplacer) (node : LRUKNode) : Nat :=
  if node.history.length < r.k then SIZE_MAX
  else r.current_timestamp - node.history.headD 0

/-- Comparator passed to std::sort in Evict over triples
(frame id, k-distance, front timestamp): larger k-distance first, ties by
smaller front timestamp. -/
def evLt (a b : Nat × Nat × Nat) : Bool :=
  if a.2.1 = b.2.1 then decide (a.2.2 < b.2.2) else decide (b.2.1 < a.2.1)

/-- Candidate list Evict builds: one triple per evictable node. -/
def candidates (r : LRUKReplacer) : List (Nat × Nat × Nat) :=
  r.node_store.filterMap fun p =>
    if p.2.is_evictable then some (p.1, kdistOf r p.2, p.2.history.headD 0) else none

/-- Minimal element of the candidate list under the comparator: the
element std::sort places at the front. -/
def pickBest (b : Nat × Nat × Nat) (l : List (Nat × Nat × Nat)) : Nat × Nat × Nat :=
  l.foldl (fun acc x => if evLt x acc then x else acc) b

/-- LRUKReplacer::Evict (lines 20-50): collect evictable candidates, fail
when none exist, otherwise take the front of the sorted candidate list,
erase that node (the source clears its history and flag first, which the
erase subsumes) and decrement curr_size_. -/
def LRUKReplacer.evict (r : LRUKReplacer) : Option (Nat × LRUKReplacer) :=
  match candidates r with
  | [] => none
  | hd :: tl =>
    let best := pickBest hd tl
    some (best.1, { r with
      node_store := aerase r.node_store best.1,
      curr_size := r.curr_size - 1 })

/-- Basic well-formedness: keys of the node store are distinct (std::map)
and curr_size_ counts the evictable nodes. -/
def RepInv (r : LRUKReplacer) : Prop :=
  (akeys r.node_store).Nodup ∧ r.curr_size = countEvictable r.node_store

/-- Well-formedness for the eviction-policy theorem: RepInv together with
the timestamp bound that keeps every finite k-distance below the SIZE_MAX
sentinel (current_timestamp_ counts recorded accesses, so any state a run
reaches satisfies it). -/
def RepWF (r : LRUKReplacer) : Prop :=
  RepInv r ∧ r.current_timestamp < SIZE_MAX

/-- K-distance as the spec states it, with a genuine infinity. -/
def kDistance (r : LRUKReplacer) (node : LRUKNode) : WithTop Nat :=
  if node.history.length < r.k then ⊤
  else ((r.current_timestamp - node.history.headD 0 : Nat) : WithTop Nat)

/-- Oldest recorded timestamp of a node (front of the history). -/
def oldestOf (node : LRUKNode) : Nat := node.history.headD 0

/-- Fresh replacer as the constructor (line 18) builds it. -/
def freshReplacer (num_frames kParam : Nat) : LRUKReplacer :=
  { node_store := [], current_timestamp := 0, curr_size := 0,
    replacer_size := num_frames, k := kParam }

/-! Association-list lemmas. -/

theorem alookup_aupsert_self {α β : Type} [DecidableEq α]
    (l : List (α × β)) (x : α) (v : β) : alookup (aupsert l x v) x = some v := by
  induction l with
  | nil => simp [aupsert, alookup]
  | cons hd tl ih =>
    obtain ⟨key, w⟩ := hd
    by_cases h : key = x
    · subst h; simp [aupsert, alookup]
    · simp [aupsert, alookup, h, ih]

theorem alookup_aupsert_ne {α β : Type} [DecidableEq α]
    (l : List (α × β)) (x y : α) (v : β) (hxy : y ≠ x) :
    alookup (aupsert l x v) y = alookup l y := by
  induction l with
  | nil => simp [aupsert, alookup, Ne.symm hxy]
  | cons hd tl ih =>
    obtain ⟨key, w⟩ := hd
    by_cases h : key = x
    · subst h
      simp [aupsert, alookup, Ne.symm hxy]
    · by_cases hky : key = y <;> simp [aupsert, alookup, h, hky, hxy, ih]

theorem alookup_mem {α β : Type} [DecidableEq α] {l : List (α × β)} {x : α} {v : β}
    (h : alookup l x = some v) : (x, v) ∈ l := by
  induction l with
  | nil => simp [alookup] at h
  | cons hd tl ih =>
    obtain ⟨key, w⟩ := hd
    by_cases hk : key = x
    · subst hk
      simp [alookup] at h
      subst h
      exact List.mem_cons_self _ _
    · simp [alookup, hk] at h
      exact List.mem_cons_of_mem _ (ih h)

theorem alookup_eq_none_of_not_mem {α β : Type} [DecidableEq α]
    (l : List (α × β)) (x : α) : x ∉ akeys l → alookup l x = none := by
  induction l with
  | nil => intro _; simp [alookup]
  | cons hd tl ih =>
    obtain ⟨key, w⟩ := hd
    intro hx
    simp only [akeys, List.map_cons, List.mem_cons, not_or] at hx
    have hkey : ¬ key = x := fun h => hx.1 h.symm
    simp only [alookup, if_neg hkey]
    exact ih (by simpa [akeys] using hx.2)

theorem alookup_of_mem_nodup {α β : Type} [DecidableEq α] (l : List (α × β)) :
    ∀ x (v : β), (akeys l).Nodup → (x, v) ∈ l → alookup l x = some v := by
  induction l with
  | nil => intro x v _ h; simp at h
  | cons hd tl ih =>
    intro x v hnd h
    obtain ⟨key, w⟩ := hd
    simp only [akeys, List.map_cons, List.nodup_cons] at hnd
    rcases List.mem_cons.mp h with heq | hmem
    · cases heq
      simp [alookup]
    · by_cases hk : key = x
      · subst hk
        exact absurd (List.mem_map_of_mem Prod.fst hmem) hnd.1
      · simp only [alookup, hk, if_false]
        exact ih x v hnd.2 hmem

theorem alookup_aerase_self {α β : Type} [DecidableEq α] (l : List (α × β)) (x : α) :
    (akeys l).Nodup → alookup (aerase l x) x = none := by
  induction l with
  | nil => intro _; simp [aerase, alookup]
  | cons hd tl ih =>
    obtain ⟨key, w⟩ := hd
    intro hnd
    simp only [akeys, List.map_cons, List.nodup_cons] at hnd
    by_cases h : key = x
    · subst h
      simp only [aerase, if_pos rfl]
      exact alookup_eq_none_of_not_mem tl key hnd.1
    · simp [aerase, alookup, h]
      exact ih hnd.2

theorem alookup_aerase_ne {α β : Type} [DecidableEq α]
    (l : List (α × β)) (x y : α) (hxy : y ≠ x) :
    alookup (aerase l x) y = alookup l y := by
  induction l with
  | nil => simp [aerase]
  | cons hd tl ih =>
    obtain ⟨key, w⟩ := hd
    by_cases h : key = x
    · subst h
      simp [aerase, alookup, Ne.symm hxy]
    · by_cases hky : key = y <;> simp [aerase, alookup, h, hky, hxy, ih]

theorem aerase_sublist {α β : Type} [DecidableEq α] (l : List (α × β)) (x : α) :
    (aerase l x).Sublist l := by
  induction l with
  | nil => simp [aerase]
  | cons hd tl ih =>
    obtain ⟨key, w⟩ := hd
    by_cases h : key = x
    · simp only [aerase, if_pos h]
      exact List.sublist_cons_self _ _
    · simp only [aerase, if_neg h]
      exact List.Sublist.cons₂ (key, w) ih

theorem akeys_aerase_nodup {α β : Type} [DecidableEq α] (l : List (α × β)) (x : α)
    (hnd : (akeys l).Nodup) : (akeys (aerase l x)).Nodup :=
  List.Nodup.sublist (List.Sublist.map Prod.fst (aerase_sublist l x)) hnd

theorem mem_akeys_aupsert {α β : Type} [DecidableEq α]
    (l : List (α × β)) (x y : α) (v : β) :
    y ∈ akeys (aupsert l x v) ↔ y = x ∨ y ∈ akeys l := by
  induction l with
  | nil => simp [aupsert, akeys]
  | cons hd tl ih =>
    obtain ⟨key, w⟩ := hd
    by_cases h : key = x
    · subst h
      simp [aupsert, akeys]
    · simp only [aupsert, if_neg h, akeys, List.map_cons, List.mem_cons]
      rw [show (tl.map Prod.fst = akeys tl) from rfl] at *
      constructor
      · rintro (hy | hy)
        · right; left; exact hy
        · rcases (ih).mp hy with h1 | h1
          · left; exact h1
          · right; right; exact h1
      · rintro (hy | hy | hy)
        · right; exact (ih).mpr (Or.inl hy)
        · left; exact hy
        · right; exact (ih).mpr (Or.inr hy)

theorem akeys_aupsert_nodup {α β : Type} [DecidableEq α]
    (l : List (α × β)) (x : α) (v : β) (hnd : (akeys l).Nodup) :
    (akeys (aupsert l x v)).Nodup := by
  induction l with
  | nil => simp [aupsert, akeys]
  | cons hd tl ih =>
    obtain ⟨key, w⟩ := hd
    simp only [akeys, List.map_cons, List.nodup_cons] at hnd
    by_cases h : key = x
    · subst h
      have heq : akeys (aupsert ((key, w) :: tl) key v) = key :: akeys tl := by
        simp [aupsert, akeys]
      rw [heq]
      exact List.nodup_cons.mpr ⟨hnd.1, hnd.2⟩
    · have heq : akeys (aupsert ((key, w) :: tl) x v)
          = key :: akeys (aupsert tl x v) := by
        simp [aupsert, akeys, h]
      rw [heq]
      refine List.nodup_cons.mpr ⟨?_, ih hnd.2⟩
      intro hmem
      rcases (mem_akeys_aupsert tl x key v).mp hmem with h1 | h1
      · exact h h1
      · exact hnd.1 h1

theorem aupsert_cons_self {α β : Type} [DecidableEq α]
    (tl : List (α × β)) (x : α) (w v : β) :
    aupsert ((x, w) :: tl) x v = (x, v) :: tl := by
  simp [aupsert]

theorem aerase_cons_self {α β : Type} [DecidableEq α]
    (tl : List (α × β)) (x : α) (w : β) :
    aerase ((x, w) :: tl) x = tl := by
  simp [aerase]

/-! Evictable-count lemmas. -/

theorem countEvictable_nil : countEvictable [] = 0 := rfl

theorem countEvictable_cons (p : Nat × LRUKNode) (tl : List (Nat × LRUKNode)) :
    countEvictable (p :: tl)
      = (if p.2.is_evictable then 1 else 0) + countEvictable tl := by
  simp only [countEvictable, List.filter_cons]
  by_cases h : p.2.is_evictable <;> simp [h, Nat.add_comm]

theorem countEvictable_pos {l : List (Nat × LRUKNode)} {x : Nat} {v : LRUKNode}
    (h : (x, v) ∈ l) (hev : v.is_evictable = true) : 0 < countEvictable l := by
  have hm : (x, v) ∈ l.filter (fun p => p.2.is_evictable) :=
    List.mem_filter.mpr ⟨h, by simp [hev]⟩
  exact List.length_pos.mpr (List.ne_nil_of_mem hm)

theorem countEvictable_aupsert (l : List (Nat × LRUKNode)) (x : Nat)
    (old v : LRUKNode) :
    (akeys l).Nodup → (x, old) ∈ l →
      countEvictable (aupsert l x v) + (if old.is_evictable then 1 else 0)
        = countEvictable l + (if v.is_evictable then 1 else 0) := by
  induction l with
  | nil => intro _ h; simp at h
  | cons hd tl ih =>
    intro hnd h
    obtain ⟨key, w⟩ := hd
    simp only [akeys, List.map_cons, List.nodup_cons] at hnd
    rcases List.mem_cons.mp h with heq | hmem
    · cases heq
      rw [aupsert_cons_self]
      simp only [countEvictable_cons]
      omega
    · have hkx : key ≠ x := by
        intro hk
        subst hk
        exact hnd.1 (List.mem_map_of_mem Prod.fst hmem)
      simp only [aupsert, if_neg hkx, countEvictable_cons]
      have := ih hnd.2 hmem
      omega

theorem countEvictable_aupsert_new (l : List (Nat × LRUKNode)) (x : Nat)
    (v : LRUKNode) (h : alookup l x = none) :
    countEvictable (aupsert l x v)
      = countEvictable l + (if v.is_evictable then 1 else 0) := by
  induction l with
  | nil => simp [aupsert, countEvictable_cons, countEvictable_nil]
  | cons hd tl ih =>
    obtain ⟨key, w⟩ := hd
    by_cases hk : key = x
    · subst hk
      simp [alookup] at h
    · simp only [alookup, if_neg hk] at h
      simp only [aupsert, if_neg hk, countEvictable_cons, ih h]
      omega

theorem countEvictable_aerase (l : List (Nat × LRUKNode)) (x : Nat)
    (old : LRUKNode) :
    (akeys l).Nodup → (x, old) ∈ l →
      countEvictable (aerase l x) + (if old.is_evictable then 1 else 0)
        = countEvictable l := by
  induction l with
  | nil => intro _ h; simp at h
  | cons hd tl ih =>
    intro hnd h
    obtain ⟨key, w⟩ := hd
    simp only [akeys, List.map_cons, List.nodup_cons] at hnd
    rcases List.mem_cons.mp h with heq | hmem
    · cases heq
      rw [aerase_cons_self]
      simp only [countEvictable_cons]
      omega
    · have hkx : key ≠ x := by
        intro hk
        subst hk
        exact hnd.1 (List.mem_map_of_mem Prod.fst hmem)
      simp only [aerase, if_neg hkx, countEvictable_cons]
      have := ih hnd.2 hmem
      omega

/-! Comparator and selection lemmas for Evict. -/

theorem evLt_irrefl (a : Nat × Nat × Nat) : evLt a a = false := by
  simp [evLt]

theorem evLt_trans {a b c : Nat × Nat × Nat}
    (h1 : evLt a b = true) (h2 : evLt b c = true) : evLt a c = true := by
  simp only [evLt] at h1 h2 ⊢
  split_ifs at h1 h2 ⊢ <;> simp_all <;> omega

theorem evLt_neg_trans {a b c : Nat × Nat × Nat}
    (h1 : evLt a b = false) (h2 : evLt b c = false) : evLt a c = false := by
  simp only [evLt] at h1 h2 ⊢
  split_ifs at h1 h2 ⊢ <;> simp_all <;> omega

theorem pickBest_spec (l : List (Nat × Nat × Nat)) :
    ∀ b : Nat × Nat × Nat,
      (pickBest b l = b ∨ pickBest b l ∈ l) ∧ evLt b (pickBest b l) = false ∧
        ∀ x ∈ l, evLt x (pickBest b l) = false := by
  induction l with
  | nil => intro b; simp [pickBest, evLt_irrefl]
  | cons y tl ih =>
    intro b
    by_cases hyb : evLt y b = true
    · have hstep : pickBest b (y :: tl) = pickBest y tl := by
        simp [pickBest, List.foldl_cons, hyb]
      rcases ih y with ⟨hmem, hby, hall⟩
      rw [hstep]
      refine ⟨?_, ?_, ?_⟩
      · rcases hmem with h | h
        · right
          rw [h]
          exact List.mem_cons_self _ _
        · right; exact List.mem_cons_of_mem _ h
      · rcases Bool.eq_false_or_eq_true (evLt b (pickBest y tl)) with h | h
        · exact absurd (evLt_trans hyb h) (by simp [hby])
        · exact h
      · intro x hx
        rcases List.mem_cons.mp hx with h | h
        · subst h; exact hby
        · exact hall x h
    · have hyb2 : evLt y b = false := Bool.eq_false_iff.mpr hyb
      have hstep : pickBest b (y :: tl) = pickBest b tl := by
        simp [pickBest, List.foldl_cons, hyb2]
      rcases ih b with ⟨hmem, hbb, hall⟩
      rw [hstep]
      refine ⟨?_, hbb, ?_⟩
      · rcases hmem with h | h
        · left; exact h
        · right; exact List.mem_cons_of_mem _ h
      · intro x hx
        rcases List.mem_cons.mp hx with h | h
        · subst h; exact evLt_neg_trans hyb2 hbb
        · exact hall x h

theorem mem_candidates {r : LRUKReplacer} {t : Nat × Nat × Nat} :
    t ∈ candidates r ↔ ∃ p ∈ r.node_store, p.2.is_evictable = true ∧
      t = (p.1, kdistOf r p.2, oldestOf p.2) := by
  simp only [candidates, List.mem_filterMap, oldestOf]
  constructor
  · rintro ⟨p, hp, hf⟩
    by_cases hev : p.2.is_evictable
    · simp only [if_pos hev, Option.some.injEq] at hf
      exact ⟨p, hp, hev, hf.symm⟩
    · simp [hev] at hf
  · rintro ⟨p, hp, hev, ht⟩
    exact ⟨p, hp, by simp [hev, ht]⟩

theorem candidates_eq_nil_iff (r : LRUKReplacer) :
    candidates r = [] ↔ ∀ p ∈ r.node_store, p.2.is_evictable = false := by
  simp only [candidates, List.filterMap_eq_nil_iff]
  constructor
  · intro h p hp
    have := h p hp
    by_cases hev : p.2.is_evictable
    · simp [hev] at this
    · simpa using hev
  · intro h p hp
    simp [h p hp]

theorem evict_none_iff (r : LRUKReplacer) :
    r.evict = none ↔ ∀ p ∈ r.node_store, p.2.is_evictable = false := by
  rw [← candidates_eq_nil_iff]
  unfold LRUKReplacer.evict
  cases hc : candidates r with
  | nil => simp
  | cons hd tl => simp

theorem evict_some_spec {r : LRUKReplacer} {fid : Nat} {r' : LRUKReplacer}
    (hnd : (akeys r.node_store).Nodup) (h : r.evict = some (fid, r')) :
    ∃ node, alookup r.node_store fid = some node ∧ node.is_evictable = true ∧
      (∀ fid2 node2, alookup r.node_store fid2 = some node2 →
        node2.is_evictable = true →
          kdistOf r node2 ≤ kdistOf r node ∧
            (kdistOf r node2 = kdistOf r node → oldestOf node ≤ oldestOf node2)) ∧
      r' = { r with node_store := aerase r.node_store fid,
                    curr_size := r.curr_size - 1 } := by
  unfold LRUKReplacer.evict at h
  cases hc : candidates r with
  | nil => rw [hc] at h; simp at h
  | cons hd tl =>
    rw [hc] at h
    simp only [Option.some.injEq, Prod.mk.injEq] at h
    obtain ⟨hfid, hr⟩ := h
    rcases pickBest_spec tl hd with ⟨hmem, hbb, hall⟩
    have hbestmem : pickBest hd tl ∈ candidates r := by
      rw [hc]
      rcases hmem with h1 | h1
      · rw [h1]; exact List.mem_cons_self _ _
      · exact List.mem_cons_of_mem _ h1
    rcases mem_candidates.mp hbestmem with ⟨p, hp, hev, hbest⟩
    refine ⟨p.2, ?_, hev, ?_, ?_⟩
    · have : fid = p.1 := by rw [← hfid, hbest]
      rw [this]
      exact alookup_of_mem_nodup r.node_store p.1 p.2 hnd (by
        cases p
        exact hp)
    · intro fid2 node2 hlook hev2
      have hmem2 : (fid2, kdistOf r node2, oldestOf node2) ∈ candidates r :=
        mem_candidates.mpr ⟨(fid2, node2), alookup_mem hlook, hev2, rfl⟩
      have hnot : evLt (fid2, kdistOf r node2, oldestOf node2) (pickBest hd tl) = false := by
        rw [hc] at hmem2
        rcases List.mem_cons.mp hmem2 with h1 | h1
        · rw [h1]
          exact hbb
        · exact hall _ h1
      rw [hbest] at hnot
      simp only [evLt] at hnot
      by_cases hkd : kdistOf r node2 = kdistOf r p.2
      · rw [if_pos hkd] at hnot
        simp only [decide_eq_false_iff_not, Nat.not_lt] at hnot
        exact ⟨Nat.le_of_eq hkd, fun _ => hnot⟩
      · rw [if_neg hkd] at hnot
        simp only [decide_eq_false_iff_not, Nat.not_lt] at hnot
        exact ⟨hnot, fun heq => absurd heq hkd⟩
    · rw [← hr, hfid]

theorem kdist_iff {r : LRUKReplacer} (hts : r.current_timestamp < SIZE_MAX)
    (n1 n2 : LRUKNode) :
    (kdistOf r n1 ≤ kdistOf r n2 ↔ kDistance r n1 ≤ kDistance r n2) ∧
      (kdistOf r n1 = kdistOf r n2 ↔ kDistance r n1 = kDistance r n2) := by
  have hb1 : r.current_timestamp - n1.history.headD 0 < SIZE_MAX :=
    Nat.lt_of_le_of_lt (Nat.sub_le _ _) hts
  have hb2 : r.current_timestamp - n2.history.headD 0 < SIZE_MAX :=
    Nat.lt_of_le_of_lt (Nat.sub_le _ _) hts
  unfold kdistOf kDistance
  by_cases h1 : n1.history.length < r.k <;> by_cases h2 : n2.history.length < r.k <;>
    simp only [if_pos, if_neg, h1, h2, if_true, if_false]
  · simp
  · constructor
    · constructor
      · intro hle
        omega
      · intro hle
        exact absurd hle (by simp [WithTop.coe_lt_top])
    · constructor
      · intro heq
        omega
      · intro heq
        exact absurd heq.symm (WithTop.coe_ne_top)
  · constructor
    · constructor
      · intro _
        exact le_top
      · intro _
        omega
    · constructor
      · intro heq
        omega
      · intro heq
        exact absurd heq (WithTop.coe_ne_top)
  · constructor
    · exact (Nat.cast_le (α := WithTop Nat)).symm
    · exact (Nat.cast_inj (R := WithTop Nat)).symm

theorem aupsert_aupsert {α β : Type} [DecidableEq α]
    (l : List (α × β)) (x : α) (v w : β) :
    aupsert (aupsert l x v) x w = aupsert l x w := by
  induction l with
  | nil => simp [aupsert]
  | cons hd tl ih =>
    obtain ⟨key, z⟩ := hd
    by_cases h : key = x
    · subst h
      simp [aupsert]
    · simp [aupsert, h, ih]

/-- Concrete replacer used by witnesses (spec scenario 5): k = 2, frame 0
accessed once at timestamp 1, frame 1 accessed at timestamps 2 and 3, both
evictable. -/
def replacerEx : LRUKReplacer :=
  { node_store := [(0, { history := [1], is_evictable := true }),
                   (1, { history := [2, 3], is_evictable := true })],
    current_timestamp := 4, curr_size := 2, replacer_size := 2, k := 2 }

/-- C2: for every well-formed replacer state, evict returns nothing
exactly when no evictable node exists; otherwise it removes and returns an
evictable frame whose k-distance (infinite for a node with fewer than k
recorded accesses, current timestamp minus the oldest recorded timestamp
otherwise) is maximal among the evictable nodes, with ties broken by the
smallest oldest recorded timestamp, and the evictable count decreases by
one. -/
theorem evict_policy (r : LRUKReplacer) (hwf : RepWF r) :
    (r.evict = none ↔ ∀ p ∈ r.node_store, p.2.is_evictable = false) ∧
    (∀ fid r', r.evict = some (fid, r') →
      ∃ node, alookup r.node_store fid = some node ∧ node.is_evictable = true ∧
        (∀ fid2 node2, alookup r.node_store fid2 = some node2 →
          node2.is_evictable = true →
            kDistance r node2 ≤ kDistance r node ∧
              (kDistance r node2 = kDistance r node →
                oldestOf node ≤ oldestOf node2)) ∧
        alookup r'.node_store fid = none ∧
        (∀ fid2, fid2 ≠ fid →
          alookup r'.node_store fid2 = alookup r.node_store fid2) ∧
        r'.size + 1 = r.size) := by
  obtain ⟨⟨hnd, hcnt⟩, hts⟩ := hwf
  refine ⟨evict_none_iff r, ?_⟩
  intro fid r' h
  rcases evict_some_spec hnd h with ⟨node, hlook, hev, hmax, hr⟩
  refine ⟨node, hlook, hev, ?_, ?_, ?_, ?_⟩
  · intro fid2 node2 hl2 he2
    rcases hmax fid2 node2 hl2 he2 with ⟨hle, htie⟩
    refine ⟨((kdist_iff hts node2 node).1).mp hle, ?_⟩
    intro heq
    exact htie (((kdist_iff hts node2 node).2).mpr heq)
  · rw [hr]
    exact alookup_aerase_self _ _ hnd
  · intro fid2 hne
    rw [hr]
    exact alookup_aerase_ne _ _ _ hne
  · rw [hr]
    have hpos : 0 < countEvictable r.node_store :=
      countEvictable_pos (alookup_mem hlook) hev
    simp only [LRUKReplacer.size]
    omega

theorem evict_policy_witness :
    (replacerEx.evict = none ↔
      ∀ p ∈ replacerEx.node_store, p.2.is_evictable = false) ∧
    (∀ fid r', replacerEx.evict = some (fid, r') →
      ∃ node, alookup replacerEx.node_store fid = some node ∧
        node.is_evictable = true ∧
        (∀ fid2 node2, alookup replacerEx.node_store fid2 = some node2 →
          node2.is_evictable = true →
            kDistance replacerEx node2 ≤ kDistance replacerEx node ∧
              (kDistance replacerEx node2 = kDistance replacerEx node →
                oldestOf node ≤ oldestOf node2)) ∧
        alookup r'.node_store fid = none ∧
        (∀ fid2, fid2 ≠ fid →
          alookup r'.node_store fid2 = alookup replacerEx.node_store fid2) ∧
        r'.size + 1 = replacerEx.size) :=
  evict_policy replacerEx (by unfold RepWF RepInv; decide)

/-- C4: the record_access of the source (pop the front of a full history
before appending for known frames, create a node then append for unknown
frames) and the formulation of the spec (append the current timestamp,
then drop the oldest entry when the history exceeds k) produce the same
node store, for every frame id below num_frames and every starting state
of a replacer with the spec precondition k ≥ 1. -/
theorem recordAccess_refines (r : LRUKReplacer) (fid : Nat)
    (hk : 1 ≤ r.k) (hfid : fid < r.replacer_size) :
    (r.recordAccess fid).2.node_store = (recordAccessSpec r fid).2.node_store := by
  unfold LRUKReplacer.recordAccess recordAccessSpec
  rw [if_neg (Nat.not_le.mpr hfid), if_neg (Nat.not_le.mpr hfid)]
  cases hl : alookup r.node_store fid with
  | none =>
    simp only [hl, alookup_aupsert_self, Option.getD_some, Option.getD_none,
      aupsert_aupsert]
    have hkz : r.k ≠ 0 := by omega
    simp [hkz]
  | some node =>
    by_cases hlen : r.k ≤ node.history.length
    · have hne : 1 ≤ node.history.length := le_trans hk hlen
      simp only [hl, if_pos hlen, alookup_aupsert_self, Option.getD_some,
        aupsert_aupsert]
      have hlen2 : r.k < (node.history ++ [r.current_timestamp]).length := by
        simp
        omega
      simp only [if_pos hlen2, Option.getD_some]
      rw [List.drop_append_of_le_length hne]
    · simp only [hl, if_neg hlen, Option.getD_some]
      have hlen2 : ¬ r.k < node.history.length + 1 := by omega
      simp [hlen2]

theorem recordAccess_refines_witness :
    (replacerEx.recordAccess 0).2.node_store
      = (recordAccessSpec replacerEx 0).2.node_store :=
  recordAccess_refines replacerEx 0 (by decide) (by decide)

/-- C8: for a frame id below num_frames, Remove is a no-op on an untracked
frame, fails with InvalidState leaving the state unchanged on a tracked
non-evictable frame, and otherwise deletes the node and decrements the
evictable count by one. -/
theorem remove_spec (r : LRUKReplacer) (fid : Nat)
    (hfid : fid < r.replacer_size) (hinv : RepInv r) :
    (alookup r.node_store fid = none → r.remove fid = (none, r)) ∧
    (∀ node, alookup r.node_store fid = some node → node.is_evictable = false →
      r.remove fid = (some RepErr.invalidState, r)) ∧
    (∀ node, alookup r.node_store fid = some node → node.is_evictable = true →
      (r.remove fid).1 = none ∧
        (r.remove fid).2.node_store = aerase r.node_store fid ∧
        alookup (r.remove fid).2.node_store fid = none ∧
        (r.remove fid).2.curr_size + 1 = r.curr_size) := by
  unfold LRUKReplacer.remove
  rw [if_neg (Nat.not_le.mpr hfid)]
  refine ⟨?_, ?_, ?_⟩
  · intro h
    rw [h]
  · intro node h hev
    rw [h]
    simp [hev]
  · intro node h hev
    rw [h]
    simp only [hev, Bool.true_eq_false, if_neg]
    have hpos : 0 < countEvictable r.node_store :=
      countEvictable_pos (alookup_mem h) hev
    refine ⟨rfl, rfl, alookup_aerase_self _ _ hinv.1, ?_⟩
    have := hinv.2
    show r.curr_size - 1 + 1 = r.curr_size
    omega

theorem remove_spec_witness :
    (alookup replacerEx.node_store 0 = none →
      replacerEx.remove 0 = (none, replacerEx)) ∧
    (∀ node, alookup replacerEx.node_store 0 = some node →
      node.is_evictable = false →
        replacerEx.remove 0 = (some RepErr.invalidState, replacerEx)) ∧
    (∀ node, alookup replacerEx.node_store 0 = some node →
      node.is_evictable = true →
        (replacerEx.remove 0).1 = none ∧
          (replacerEx.remove 0).2.node_store = aerase replacerEx.node_store 0 ∧
          alookup (replacerEx.remove 0).2.node_store 0 = none ∧
          (replacerEx.remove 0).2.curr_size + 1 = replacerEx.curr_size) :=
  remove_spec replacerEx 0 (by decide) (by unfold RepInv; decide)

/-- C10: calling set_evictable on a tracked in-range frame with a flag
equal to the current evictability of its node is a no-op: no error and the
whole replacer state (node store, flags, histories, size) is unchanged. -/
theorem setEvictable_idempotent (r : LRUKReplacer) (fid : Nat) (node : LRUKNode)
    (hfid : fid < r.replacer_size)
    (hlook : alookup r.node_store fid = some node) :
    r.setEvictable fid node.is_evictable = (none, r) := by
  unfold LRUKReplacer.setEvictable
  rw [if_neg (Nat.not_le.mpr hfid), hlook]
  simp

theorem setEvictable_idempotent_witness :
    replacerEx.setEvictable 0 true = (none, replacerEx) :=
  setEvictable_idempotent replacerEx 0 { history := [1], is_evictable := true }
    (by decide) (by decide)

/-! Preservation of the size-accounting invariant by every replacer
operation (claim C5 machinery). -/

theorem countEvictable_aupsert_keep (l : List (Nat × LRUKNode)) (x : Nat)
    (old v : LRUKNode) (hnd : (akeys l).Nodup)
    (hl : alookup l x = some old) (hev : v.is_evictable = old.is_evictable) :
    countEvictable (aupsert l x v) = countEvictable l := by
  have h := countEvictable_aupsert l x old v hnd (alookup_mem hl)
  rw [hev] at h
  omega

theorem repInv_recordAccess (r : LRUKReplacer) (fid : Nat) (h : RepInv r) :
    RepInv (r.recordAccess fid).2 := by
  obtain ⟨hnd, hcnt⟩ := h
  unfold LRUKReplacer.recordAccess
  by_cases hg : r.replacer_size ≤ fid
  · rw [if_pos hg]
    exact ⟨hnd, hcnt⟩
  · rw [if_neg hg]
    cases hl : alookup r.node_store fid with
    | none =>
      simp only [alookup_aupsert_self, Option.getD_some]
      constructor
      · exact akeys_aupsert_nodup _ _ _ (akeys_aupsert_nodup _ _ _ hnd)
      · rw [aupsert_aupsert]
        rw [countEvictable_aupsert_new _ _ _ hl]
        simpa using hcnt
    | some node =>
      by_cases hlen : r.k ≤ node.history.length
      · simp only [if_pos hlen, alookup_aupsert_self, Option.getD_some]
        constructor
        · exact akeys_aupsert_nodup _ _ _ (akeys_aupsert_nodup _ _ _ hnd)
        · rw [aupsert_aupsert]
          rw [countEvictable_aupsert_keep r.node_store fid node
            { history := List.drop 1 node.history ++ [r.current_timestamp],
              is_evictable := node.is_evictable } hnd hl rfl]
          exact hcnt
      · simp only [if_neg hlen, hl, Option.getD_some]
        constructor
        · exact akeys_aupsert_nodup _ _ _ hnd
        · rw [countEvictable_aupsert_keep r.node_store fid node
            { history := node.history ++ [r.current_timestamp],
              is_evictable := node.is_evictable } hnd hl rfl]
          exact hcnt

theorem repInv_setEvictable (r : LRUKReplacer) (fid : Nat) (b : Bool)
    (h : RepInv r) : RepInv (r.setEvictable fid b).2 := by
  obtain ⟨hnd, hcnt⟩ := h
  unfold LRUKReplacer.setEvictable
  by_cases hg : r.replacer_size ≤ fid
  · rw [if_pos hg]
    exact ⟨hnd, hcnt⟩
  · rw [if_neg hg]
    cases hl : alookup r.node_store fid with
    | none => exact ⟨hnd, hcnt⟩
    | some node =>
      by_cases hb : b = node.is_evictable
      · simp only [if_pos hb]
        exact ⟨hnd, hcnt⟩
      · simp only [if_neg hb]
        constructor
        · exact akeys_aupsert_nodup _ _ _ hnd
        · have hcount := countEvictable_aupsert r.node_store fid node
            { node with is_evictable := b } hnd (alookup_mem hl)
          cases b with
          | true =>
            have hnodeev : node.is_evictable = false := by
              cases hne : node.is_evictable
              · rfl
              · exact absurd hne.symm hb
            simp [hnodeev] at hcount ⊢
            omega
          | false =>
            have hnodeev : node.is_evictable = true := by
              cases hne : node.is_evictable
              · exact absurd hne.symm hb
              · rfl
            have hpos : 0 < countEvictable r.node_store :=
              countEvictable_pos (alookup_mem hl) hnodeev
            simp [hnodeev] at hcount ⊢
            omega

theorem repInv_remove (r : LRUKReplacer) (fid : Nat) (h : RepInv r) :
    RepInv (r.remove fid).2 := by
  obtain ⟨hnd, hcnt⟩ := h
  unfold LRUKReplacer.remove
  by_cases hg : r.replacer_size ≤ fid
  · rw [if_pos hg]
    exact ⟨hnd, hcnt⟩
  · rw [if_neg hg]
    cases hl : alookup r.node_store fid with
    | none => exact ⟨hnd, hcnt⟩
    | some node =>
      by_cases hev : node.is_evictable = false
      · simp only [if_pos hev]
        exact ⟨hnd, hcnt⟩
      · simp only [if_neg hev]
        have hevt : node.is_evictable = true := by
          cases hne : node.is_evictable
          · exact absurd hne hev
          · rfl
        constructor
        · exact akeys_aerase_nodup _ _ hnd
        · have hcount := countEvictable_aerase r.node_store fid node hnd
            (alookup_mem hl)
          have hpos : 0 < countEvictable r.node_store :=
            countEvictable_pos (alookup_mem hl) hevt
          simp only [hevt, if_true] at hcount
          show r.curr_size - 1 = countEvictable (aerase r.node_store fid)
          omega

theorem repInv_evict (r : LRUKReplacer) (h : RepInv r) :
    RepInv (match r.evict with
            | none => r
            | some (_, r') => r') := by
  cases he : r.evict with
  | none => exact h
  | some pair =>
    obtain ⟨fid, r'⟩ := pair
    rcases evict_some_spec h.1 he with ⟨node, hlook, hev, _, hr⟩
    rw [hr]
    constructor
    · exact akeys_aerase_nodup _ _ h.1
    · have hcount := countEvictable_aerase r.node_store fid node h.1
        (alookup_mem hlook)
      have hpos : 0 < countEvictable r.node_store :=
        countEvictable_pos (alookup_mem hlook) hev
      have hcnt := h.2
      simp only [hev, if_true] at hcount
      show r.curr_size - 1 = countEvictable (aerase r.node_store fid)
      omega

/-- Replacer public operations, for stating properties over arbitrary call
sequences: record_access, set_evictable, evict, remove.  An operation that
throws leaves the replacer as it was when the throw happened, so the
sequence continues from that state. -/
inductive RepOp : Type
  | record : Nat → RepOp
  | setEv : Nat → Bool → RepOp
  | evictOp : RepOp
  | removeOp : Nat → RepOp

/-- State after one replacer operation. -/
def applyRepOp (r : LRUKReplacer) : RepOp → LRUKReplacer
  | RepOp.record fid => (r.recordAccess fid).2
  | RepOp.setEv fid b => (r.setEvictable fid b).2
  | RepOp.evictOp =>
    match r.evict with
    | none => r
    | some (_, r') => r'
  | RepOp.removeOp fid => (r.remove fid).2

/-- State after a sequence of replacer operations. -/
def runRepOps (r : LRUKReplacer) (ops : List RepOp) : LRUKReplacer :=
  ops.foldl applyRepOp r

theorem repInv_applyRepOp (r : LRUKReplacer) (op : RepOp) (h : RepInv r) :
    RepInv (applyRepOp r op) := by
  cases op with
  | record fid => exact repInv_recordAccess r fid h
  | setEv fid b => exact repInv_setEvictable r fid b h
  | evictOp => exact repInv_evict r h
  | removeOp fid => exact repInv_remove r fid h

theorem repInv_runRepOps (r : LRUKReplacer) (ops : List RepOp) (h : RepInv r) :
    RepInv (runRepOps r ops) := by
  induction ops generalizing r with
  | nil => exact h
  | cons op rest ih => exact ih _ (repInv_applyRepOp r op h)

/-- C5: after any sequence of replacer operations starting from a fresh
replacer, size() equals the number of nodes in the node store whose
is_evictable flag is true. -/
theorem size_accounting (num_frames kParam : Nat) (ops : List RepOp) :
    (runRepOps (freshReplacer num_frames kParam) ops).size
      = countEvictable (runRepOps (freshReplacer num_frames kParam) ops).node_store :=
  (repInv_runRepOps (freshReplacer num_frames kParam) ops
    ⟨by simp [freshReplacer, akeys], rfl⟩).2

/-! Buffer pool manager (buffer_pool_manager.cpp). -/

/-- INVALID_PAGE_ID sentinel of page_id_t. -/
def INVALID_PAGE_ID : Int := -1

/-- Page frame: metadata plus the byte buffer, which is modelled as an
abstract Nat value (ResetMemory writes the zero buffer).  The per-frame
reader-writer latch is modelled by a reader count and a writer flag. -/
structure Page where
  data : Nat
  page_id : Int
  pin_count : Int
  is_dirty : Bool
  rlatch : Nat
  wlatch : Bool
deriving DecidableEq, Repr

/-- Default-constructed Page, as new Page[pool_size] builds them: invalid
page id, zero pin count, clean, zeroed buffer. -/
def defaultPage : Page :=
  { data := 0, page_id := INVALID_PAGE_ID, pin_count := 0, is_dirty := false,
    rlatch := 0, wlatch := false }

/-- BufferPoolManager state: the frame array pages_, page_table_,
free_list_, the replacer, next_page_id_, and the stable storage reached
through the disk scheduler, modelled as a map from page id to stored
buffer value (a completed write stores the frame buffer at the page id, a
read returns the stored value, or the zero buffer for a never-written
page). -/
structure BufferPoolManager where
  pool_size : Nat
  pages : List Page
  page_table : List (Int × Nat)
  free_list : List Nat
  replacer : LRUKReplacer
  next_page_id : Int
  disk : List (Int × Nat)
deriving DecidableEq, Repr

/-- Frame at index f (pages_[f]). -/
def pageAt (s : BufferPoolManager) (f : Nat) : Page := s.pages.getD f defaultPage

/-- Store a frame at index f. -/
def setPage (s : BufferPoolManager) (f : Nat) (pg : Page) : BufferPoolManager :=
  { s with pages := s.pages.set f pg }

/-- BufferPoolManager::WriteFrame (lines 218-230): schedule a write of the
frame buffer to the page id and wait for completion. -/
def writeFrame (s : BufferPoolManager) (f : Nat) (pid : Int) : BufferPoolManager :=
  { s with disk := aupsert s.disk pid (pageAt s f).data }

/-- BufferPoolManager::ReadFrame (lines 204-216): schedule a read of the
page id into the frame buffer and wait for completion. -/
def readFrame (s : BufferPoolManager) (f : Nat) (pid : Int) : BufferPoolManager :=
  setPage s f { pageAt s f with data := (alookup s.disk pid).getD 0 }

/-- BufferPoolManager::AllocateFrame (lines 189-203): pop the free list
when it is non-empty; otherwise ask the replacer to evict, write the
victim frame back when dirty, and drop the victim page id from the page
table; the sentinel (modelled as none) signals failure. -/
def BufferPoolManager.allocateFrame (s : BufferPoolManager) :
    Option Nat × BufferPoolManager :=
  match s.free_list with
  | f :: rest => (some f, { s with free_list := rest })
  | [] =>
    match s.replacer.evict with
    | none => (none, s)
    | some (f, rep) =>
      let s1 := { s with replacer := rep }
      let pg := pageAt s1 f
      let s2 := if pg.is_dirty then writeFrame s1 f pg.page_id else s1
      (some f, { s2 with page_table := aerase s2.page_table pg.page_id })

/-- BufferPoolManager::FetchPage (lines 62-94).  A propagated replacer
exception is returned in the first component together with the state as
mutated up to the throw. -/
def BufferPoolManager.fetchPage (s : BufferPoolManager) (pid : Int) :
    Option RepErr × Option Nat × BufferPoolManager :=
  match alookup s.page_table pid with
  | some f =>
    let s1 := setPage s f
      { pageAt s f with pin_count := (pageAt s f).pin_count + 1 }
    match s1.replacer.recordAccess f with
    | (some e, rep) => (some e, none, { s1 with replacer := rep })
    | (none, rep) =>
      let s2 := { s1 with replacer := rep }
      match s2.replacer.setEvictable f false with
      | (some e, rep2) => (some e, none, { s2 with replacer := rep2 })
      | (none, rep2) => (none, some f, { s2 with replacer := rep2 })
  | none =>
    match s.allocateFrame with
    | (none, s1) => (none, none, s1)
    | (some f, s1) =>
      let s2 := readFrame s1 f pid
      let s3 := setPage s2 f
        { pageAt s2 f with page_id := pid, pin_count := 1, is_dirty := false }
      match s3.replacer.recordAccess f with
      | (some e, rep) => (some e, none, { s3 with replacer := rep })
      | (none, rep) =>
        let s4 := { s3 with replacer := rep }
        match s4.replacer.setEvictable f false with
        | (some e, rep2) => (some e, none, { s4 with replacer := rep2 })
        | (none, rep2) =>
          (none, some f,
            { s4 with replacer := rep2,
                      page_table := aupsert s4.page_table pid f })

/-- BufferPoolManager::UnpinPage (lines 96-119). -/
def BufferPoolManager.unpinPage (s : BufferPoolManager) (pid : Int)
    (dirtyHint : Bool) : Option RepErr × Bool × BufferPoolManager :=
  match alookup s.page_table pid with
  | none => (none, false, s)
  | some f =>
    if (pageAt s f).pin_count ≤ 0 then (none, false, s)
    else
      let pg := pageAt s f
      let s1 := setPage s f
        { pg with pin_count := pg.pin_count - 1,
                  is_dirty := pg.is_dirty || dirtyHint }
      if (pageAt s1 f).pin_count = 0 then
        match s1.replacer.setEvictable f true with
        | (some e, rep) => (some e, false, { s1 with replacer := rep })
        | (none, rep) => (none, true, { s1 with replacer := rep })
      else (none, true, s1)

/-- Modelled from the spec: DeallocatePage is declared in the header,
which is not among the repository files here; per the spec the page-id
deallocation hook invoked on delete may be a no-op (reuse of page ids is
not required). -/
def deallocatePage (s : BufferPoolManager) (_pid : Int) : BufferPoolManager := s

/-- BufferPoolManager::DeletePage (lines 146-170). -/
def BufferPoolManager.deletePage (s : BufferPoolManager) (pid : Int) :
    Option RepErr × Bool × BufferPoolManager :=
  match alookup s.page_table pid with
  | none => (none, true, s)
  | some f =>
    if (pageAt s f).pin_count > 0 then (none, false, s)
    else
      let s1 := { s with page_table := aerase s.page_table pid,
                         free_list := s.free_list ++ [f] }
      match s1.replacer.remove f with
      | (some e, rep) => (some e, false, { s1 with replacer := rep })
      | (none, rep) =>
        let s2 := { s1 with replacer := rep }
        let s3 := setPage s2 f
          { data := 0, page_id := INVALID_PAGE_ID, pin_count := 0,
            is_dirty := false, rlatch := (pageAt s2 f).rlatch,
            wlatch := (pageAt s2 f).wlatch }
        (none, true, deallocatePage s3 pid)

/-- Faults surfacing from the guard factory operations: a propagated
replacer exception or a dereference of the null page handle. -/
inductive BPMFault : Type
  | rep : RepErr → BPMFault
  | nullDeref : BPMFault
deriving DecidableEq, Repr

/-- Page::RLatch on frame f. -/
def rLatch (s : BufferPoolManager) (f : Nat) : BufferPoolManager :=
  setPage s f { pageAt s f with rlatch := (pageAt s f).rlatch + 1 }

/-- Page::WLatch on frame f. -/
def wLatch (s : BufferPoolManager) (f : Nat) : BufferPoolManager :=
  setPage s f { pageAt s f with wlatch := true }

/-- BufferPoolManager::FetchPageRead (lines 176-180): calls FetchPage and
invokes RLatch through the returned pointer with no null check, so the
null handle returned on pool exhaustion is dereferenced. -/
def BufferPoolManager.fetchPageRead (s : BufferPoolManager) (pid : Int) :
    Option BPMFault × Option Nat × BufferPoolManager :=
  match s.fetchPage pid with
  | (some e, _, s1) => (some (BPMFault.rep e), none, s1)
  | (none, none, s1) => (some BPMFault.nullDeref, none, s1)
  | (none, some f, s1) => (none, some f, rLatch s1 f)

/-- BufferPoolManager::FetchPageWrite (lines 182-186): same shape with
WLatch. -/
def BufferPoolManager.fetchPageWrite (s : BufferPoolManager) (pid : Int) :
    Option BPMFault × Option Nat × BufferPoolManager :=
  match s.fetchPage pid with
  | (some e, _, s1) => (some (BPMFault.rep e), none, s1)
  | (none, none, s1) => (some BPMFault.nullDeref, none, s1)
  | (none, some f, s1) => (none, some f, wLatch s1 f)

/-- Exception thrown by the BufferPoolManager constructor body. -/
inductive CtorErr : Type
  | notImplemented : CtorErr
deriving DecidableEq, Repr

/-- BufferPoolManager::BufferPoolManager (lines 20-36): after the
initialiser list, the body unconditionally throws NotImplementedException
(the TODO line), so the frame array, the replacer and the free list are
never initialised. -/
def BufferPoolManager.construct (pool_size replacer_k : Nat) :
    Except CtorErr BufferPoolManager :=
  Except.error CtorErr.notImplemented

/-- State the initialisation code after the throw (lines 28-35, currently
dead) would build: pool_size default frames, an LRU-K replacer over
pool_size frames with parameter replacer_k, and every frame id of
[0, pool_size) pushed onto the free list in order. -/
def bpmInitState (pool_size replacer_k : Nat) : BufferPoolManager :=
  { pool_size := pool_size,
    pages := List.replicate pool_size defaultPage,
    page_table := [],
    free_list := List.range pool_size,
    replacer := freshReplacer pool_size replacer_k,
    next_page_id := 0,
    disk := [] }

theorem pageAt_setPage_self (s : BufferPoolManager) (f : Nat) (pg : Page)
    (h : f < s.pages.length) : pageAt (setPage s f pg) f = pg := by
  simp [pageAt, setPage, List.getD_eq_getElem?_getD, List.getElem?_set_self, h]

theorem pageAt_setPage_ne (s : BufferPoolManager) (f g : Nat) (pg : Page)
    (h : g ≠ f) : pageAt (setPage s f pg) g = pageAt s g := by
  simp [pageAt, setPage, List.getD_eq_getElem?_getD,
    List.getElem?_set_ne (fun hh => h hh.symm)]

theorem setEvictable_true_success (r : LRUKReplacer) (fid : Nat)
    (node : LRUKNode) (hfid : fid < r.replacer_size)
    (hlook : alookup r.node_store fid = some node) :
    (r.setEvictable fid true).1 = none ∧
      ∃ node2, alookup (r.setEvictable fid true).2.node_store fid = some node2 ∧
        node2.is_evictable = true := by
  by_cases hev : node.is_evictable = true
  · have hres : r.setEvictable fid true = (none, r) := by
      unfold LRUKReplacer.setEvictable
      rw [if_neg (Nat.not_le.mpr hfid), hlook]
      simp [hev]
    rw [hres]
    exact ⟨rfl, node, hlook, hev⟩
  · have hev2 : node.is_evictable = false := by
      cases hb : node.is_evictable
      · rfl
      · exact absurd hb hev
    have hres : r.setEvictable fid true =
        (none, { r with
          node_store := aupsert r.node_store fid { node with is_evictable := true },
          curr_size := r.curr_size + 1 }) := by
      unfold LRUKReplacer.setEvictable
      rw [if_neg (Nat.not_le.mpr hfid), hlook]
      simp [hev2]
    rw [hres]
    exact ⟨rfl, { node with is_evictable := true }, alookup_aupsert_self _ _ _, rfl⟩

/-- C1: the claim states the constructor returns normally having allocated
pool_size frames, created the LRU-K replacer over pool_size frames with
parameter replacer_k, and pushed every frame id of [0, pool_size) onto the
free list; the constructor body instead throws NotImplementedException
unconditionally before that initialisation code runs (the dead
initialisation code would establish exactly the claimed state). -/
theorem construct_throws :
    BufferPoolManager.construct 3 2 = Except.error CtorErr.notImplemented ∧
    (bpmInitState 3 2).pages = [defaultPage, defaultPage, defaultPage] ∧
    (bpmInitState 3 2).replacer = freshReplacer 3 2 ∧
    (bpmInitState 3 2).free_list = [0, 1, 2] := by
  refine ⟨rfl, rfl, rfl, rfl⟩

/-- C3: a frame from the free list is preferred over eviction whenever
the free list is non-empty (the state changes only by popping the free
list); when the free list is empty and eviction succeeds, a dirty victim
has its buffer written to stable storage at its page id, and the victim
page id is removed from the page table, before the frame is handed out
for reuse. -/
theorem allocateFrame_spec (s : BufferPoolManager)
    (hnd : (akeys s.page_table).Nodup) :
    (∀ f rest, s.free_list = f :: rest →
      s.allocateFrame = (some f, { s with free_list := rest })) ∧
    (s.free_list = [] → ∀ f rep, s.replacer.evict = some (f, rep) →
      (s.allocateFrame).1 = some f ∧
      ((pageAt s f).is_dirty = true →
        alookup (s.allocateFrame).2.disk (pageAt s f).page_id
          = some (pageAt s f).data) ∧
      alookup (s.allocateFrame).2.page_table (pageAt s f).page_id = none) := by
  constructor
  · intro f rest h
    unfold BufferPoolManager.allocateFrame
    rw [h]
  · intro hfree f rep he
    unfold BufferPoolManager.allocateFrame
    rw [hfree, he]
    have hpg : pageAt
        { pool_size := s.pool_size, pages := s.pages, page_table := s.page_table,
          free_list := [], replacer := rep, next_page_id := s.next_page_id,
          disk := s.disk } f = pageAt s f := rfl
    simp only [hpg]
    by_cases hd : (pageAt s f).is_dirty = true
    · rw [if_pos hd]
      refine ⟨by trivial, fun _ => ?_, ?_⟩
      · show alookup (aupsert s.disk (pageAt s f).page_id (pageAt s f).data)
            (pageAt s f).page_id = some (pageAt s f).data
        exact alookup_aupsert_self _ _ _
      · show alookup (aerase s.page_table (pageAt s f).page_id)
            (pageAt s f).page_id = none
        exact alookup_aerase_self _ _ hnd
    · rw [if_neg hd]
      refine ⟨by trivial, fun hcon => absurd hcon hd, ?_⟩
      show alookup (aerase s.page_table (pageAt s f).page_id)
          (pageAt s f).page_id = none
      exact alookup_aerase_self _ _ hnd

/-- Buffer pool state used by witnesses: one frame holding dirty page 5
with pin count zero, evictable, empty free list. -/
def bpmEx : BufferPoolManager :=
  { pool_size := 1,
    pages := [{ data := 7, page_id := 5, pin_count := 0, is_dirty := true,
                rlatch := 0, wlatch := false }],
    page_table := [(5, 0)],
    free_list := [],
    replacer := { node_store := [(0, { history := [0], is_evictable := true })],
                  current_timestamp := 1, curr_size := 1, replacer_size := 1,
                  k := 2 },
    next_page_id := 6,
    disk := [] }

theorem allocateFrame_spec_witness :
    (∀ f rest, bpmEx.free_list = f :: rest →
      bpmEx.allocateFrame = (some f, { bpmEx with free_list := rest })) ∧
    (bpmEx.free_list = [] → ∀ f rep, bpmEx.replacer.evict = some (f, rep) →
      (bpmEx.allocateFrame).1 = some f ∧
      ((pageAt bpmEx f).is_dirty = true →
        alookup (bpmEx.allocateFrame).2.disk (pageAt bpmEx f).page_id
          = some (pageAt bpmEx f).data) ∧
      alookup (bpmEx.allocateFrame).2.page_table (pageAt bpmEx f).page_id
        = none) :=
  allocateFrame_spec bpmEx (by decide)

/-- BPM well-formedness for unpin: every resident frame is in range for
the frame array and for the replacer, and tracked by the replacer
(FetchPage and NewPage record an access for a frame whenever its page
enters the page table). -/
def FramesTracked (s : BufferPoolManager) : Prop :=
  ∀ pid f, alookup s.page_table pid = some f →
    f < s.pages.length ∧ f < s.replacer.replacer_size ∧
      (alookup s.replacer.node_store f).isSome = true

/-- C6: unpin_page returns false when the page is not resident or its pin
count is not positive; otherwise it decrements the pin count, sets the
dirty flag to the OR of its old value and the hint (a false hint never
clears dirtiness), marks the frame evictable exactly when the pin count
reaches zero, and returns true. -/
theorem unpinPage_spec (s : BufferPoolManager) (pid : Int) (hint : Bool)
    (hwf : FramesTracked s) :
    (alookup s.page_table pid = none →
      s.unpinPage pid hint = (none, false, s)) ∧
    (∀ f, alookup s.page_table pid = some f → (pageAt s f).pin_count ≤ 0 →
      s.unpinPage pid hint = (none, false, s)) ∧
    (∀ f, alookup s.page_table pid = some f → 0 < (pageAt s f).pin_count →
      (s.unpinPage pid hint).1 = none ∧ (s.unpinPage pid hint).2.1 = true ∧
      (pageAt (s.unpinPage pid hint).2.2 f).pin_count
        = (pageAt s f).pin_count - 1 ∧
      (pageAt (s.unpinPage pid hint).2.2 f).is_dirty
        = ((pageAt s f).is_dirty || hint) ∧
      ((pageAt s f).pin_count = 1 →
        ∃ node, alookup (s.unpinPage pid hint).2.2.replacer.node_store f
            = some node ∧ node.is_evictable = true) ∧
      ((pageAt s f).pin_count ≠ 1 →
        (s.unpinPage pid hint).2.2.replacer = s.replacer)) := by
  refine ⟨?_, ?_, ?_⟩
  · intro h
    unfold BufferPoolManager.unpinPage
    rw [h]
  · intro f hf hle
    unfold BufferPoolManager.unpinPage
    rw [hf]
    simp [hle]
  · intro f hf hpos
    obtain ⟨hflen, hfr, hfs⟩ := hwf pid f hf
    obtain ⟨node, hnode⟩ := Option.isSome_iff_exists.mp hfs
    have hnle : ¬ (pageAt s f).pin_count ≤ 0 := by omega
    have hstep : s.unpinPage pid hint =
        (if (pageAt s f).pin_count ≤ 0 then (none, false, s)
         else
           if (pageAt (setPage s f
               { pageAt s f with
                 pin_count := (pageAt s f).pin_count - 1,
                 is_dirty := (pageAt s f).is_dirty || hint }) f).pin_count = 0 then
             match (setPage s f
                 { pageAt s f with
                   pin_count := (pageAt s f).pin_count - 1,
                   is_dirty := (pageAt s f).is_dirty || hint }).replacer.setEvictable
                 f true with
             | (some e, rep) =>
               (some e, false,
                 { setPage s f
                     { pageAt s f with
                       pin_count := (pageAt s f).pin_count - 1,
                       is_dirty := (pageAt s f).is_dirty || hint } with
                   replacer := rep })
             | (none, rep) =>
               (none, true,
                 { setPage s f
                     { pageAt s f with
                       pin_count := (pageAt s f).pin_count - 1,
                       is_dirty := (pageAt s f).is_dirty || hint } with
                   replacer := rep })
           else
             (none, true, setPage s f
               { pageAt s f with
                 pin_count := (pageAt s f).pin_count - 1,
                 is_dirty := (pageAt s f).is_dirty || hint })) := by
      unfold BufferPoolManager.unpinPage
      rw [hf]
    rw [hstep, if_neg hnle,
      pageAt_setPage_self s f _ hflen]
    by_cases h1 : (pageAt s f).pin_count = 1
    · have hz : ({ pageAt s f with
          pin_count := (pageAt s f).pin_count - 1,
          is_dirty := (pageAt s f).is_dirty || hint } : Page).pin_count = 0 := by
        show (pageAt s f).pin_count - 1 = 0
        omega
      rw [if_pos hz]
      rcases hq : s.replacer.setEvictable f true with ⟨e, rep⟩
      obtain ⟨hse1, node2, hse2, hse3⟩ :=
        setEvictable_true_success s.replacer f node hfr hnode
      rw [hq] at hse1 hse2
      have he : e = none := hse1
      subst he
      rw [show (setPage s f
          { pageAt s f with
            pin_count := (pageAt s f).pin_count - 1,
            is_dirty := (pageAt s f).is_dirty || hint }).replacer.setEvictable
          f true = (none, rep) from hq]
      refine ⟨rfl, rfl, ?_, ?_, fun _ => ⟨node2, hse2, hse3⟩, fun hcon => absurd h1 hcon⟩
      · show (pageAt (setPage s f
            { pageAt s f with
              pin_count := (pageAt s f).pin_count - 1,
              is_dirty := (pageAt s f).is_dirty || hint }) f).pin_count
            = (pageAt s f).pin_count - 1
        rw [pageAt_setPage_self s f _ hflen]
      · show (pageAt (setPage s f
            { pageAt s f with
              pin_count := (pageAt s f).pin_count - 1,
              is_dirty := (pageAt s f).is_dirty || hint }) f).is_dirty
            = ((pageAt s f).is_dirty || hint)
        rw [pageAt_setPage_self s f _ hflen]
    · have hz : ¬ ({ pageAt s f with
          pin_count := (pageAt s f).pin_count - 1,
          is_dirty := (pageAt s f).is_dirty || hint } : Page).pin_count = 0 := by
        show ¬ (pageAt s f).pin_count - 1 = 0
        omega
      rw [if_neg hz]
      refine ⟨rfl, rfl, ?_, ?_, fun hcon => absurd hcon h1, fun _ => rfl⟩
      · rw [pageAt_setPage_self s f _ hflen]
      · rw [pageAt_setPage_self s f _ hflen]

/-- Buffer pool state used by the unpin witness: one frame holding page 9
pinned once, tracked and not evictable. -/
def bpmEx2 : BufferPoolManager :=
  { pool_size := 1,
    pages := [{ data := 3, page_id := 9, pin_count := 1, is_dirty := false,
                rlatch := 0, wlatch := false }],
    page_table := [(9, 0)],
    free_list := [],
    replacer := { node_store := [(0, { history := [0], is_evictable := false })],
                  current_timestamp := 1, curr_size := 0, replacer_size := 1,
                  k := 2 },
    next_page_id := 10,
    disk := [] }

theorem framesTracked_bpmEx2 : FramesTracked bpmEx2 := by
  intro pid f h
  simp only [bpmEx2, alookup] at h
  by_cases hp : (9 : Int) = pid
  · simp [hp] at h
    subst h
    refine ⟨by decide, by decide, by decide⟩
  · simp [hp] at h

theorem unpinPage_spec_witness :
    (alookup bpmEx2.page_table 9 = none →
      bpmEx2.unpinPage 9 true = (none, false, bpmEx2)) ∧
    (∀ f, alookup bpmEx2.page_table 9 = some f →
      (pageAt bpmEx2 f).pin_count ≤ 0 →
        bpmEx2.unpinPage 9 true = (none, false, bpmEx2)) ∧
    (∀ f, alookup bpmEx2.page_table 9 = some f →
      0 < (pageAt bpmEx2 f).pin_count →
      (bpmEx2.unpinPage 9 true).1 = none ∧
      (bpmEx2.unpinPage 9 true).2.1 = true ∧
      (pageAt (bpmEx2.unpinPage 9 true).2.2 f).pin_count
        = (pageAt bpmEx2 f).pin_count - 1 ∧
      (pageAt (bpmEx2.unpinPage 9 true).2.2 f).is_dirty
        = ((pageAt bpmEx2 f).is_dirty || true) ∧
      ((pageAt bpmEx2 f).pin_count = 1 →
        ∃ node, alookup (bpmEx2.unpinPage 9 true).2.2.replacer.node_store f
            = some node ∧ node.is_evictable = true) ∧
      ((pageAt bpmEx2 f).pin_count ≠ 1 →
        (bpmEx2.unpinPage 9 true).2.2.replacer = bpmEx2.replacer)) :=
  unpinPage_spec bpmEx2 9 true framesTracked_bpmEx2

/-- Safety hypotheses for delete, together matching any state the BPM
reaches: page table and replacer keys are distinct, resident frames are
in range, and a resident frame whose pin count is not positive is, when
tracked by the replacer, evictable (unpin marks frames evictable exactly
when the pin count reaches zero, so Remove does not throw). -/
def DeleteSafe (s : BufferPoolManager) : Prop :=
  ∀ pid f, alookup s.page_table pid = some f →
    f < s.pages.length ∧ f < s.replacer.replacer_size ∧
      ((pageAt s f).pin_count ≤ 0 →
        ∀ node, alookup s.replacer.node_store f = some node →
          node.is_evictable = true)

/-- C7: delete_page returns true when the page is not resident; returns
false with the state unchanged when the page is resident and pinned; and
otherwise removes the page-table entry, pushes the frame onto the free
list, removes the frame from the replacer, resets the frame metadata and
buffer, and returns true. -/
theorem deletePage_spec (s : BufferPoolManager) (pid : Int)
    (hnd : (akeys s.page_table).Nodup)
    (hrnd : (akeys s.replacer.node_store).Nodup)
    (hsafe : DeleteSafe s) :
    (alookup s.page_table pid = none → s.deletePage pid = (none, true, s)) ∧
    (∀ f, alookup s.page_table pid = some f → 0 < (pageAt s f).pin_count →
      s.deletePage pid = (none, false, s)) ∧
    (∀ f, alookup s.page_table pid = some f → (pageAt s f).pin_count ≤ 0 →
      (s.deletePage pid).1 = none ∧ (s.deletePage pid).2.1 = true ∧
      alookup (s.deletePage pid).2.2.page_table pid = none ∧
      (s.deletePage pid).2.2.free_list = s.free_list ++ [f] ∧
      alookup (s.deletePage pid).2.2.replacer.node_store f = none ∧
      pageAt (s.deletePage pid).2.2 f
        = { data := 0, page_id := INVALID_PAGE_ID, pin_count := 0,
            is_dirty := false, rlatch := (pageAt s f).rlatch,
            wlatch := (pageAt s f).wlatch }) := by
  refine ⟨?_, ?_, ?_⟩
  · intro h
    unfold BufferPoolManager.deletePage
    rw [h]
  · intro f hf hpos
    unfold BufferPoolManager.deletePage
    rw [hf]
    simp [hpos]
  · intro f hf hle
    obtain ⟨hflen, hfr, himpl⟩ := hsafe pid f hf
    have hngt : ¬ (pageAt s f).pin_count > 0 := by omega
    cases hlook : alookup s.replacer.node_store f with
    | none =>
      have hq : s.replacer.remove f = (none, s.replacer) := by
        unfold LRUKReplacer.remove
        rw [if_neg (Nat.not_le.mpr hfr), hlook]
      unfold BufferPoolManager.deletePage
      rw [hf]
      simp only [if_neg hngt, hq, deallocatePage]
      refine ⟨by trivial, by trivial, ?_, by trivial, hlook, ?_⟩
      · show alookup (aerase s.page_table pid) pid = none
        exact alookup_aerase_self _ _ hnd
      · show (s.pages.set f
              { data := 0, page_id := INVALID_PAGE_ID, pin_count := 0,
                is_dirty := false, rlatch := (pageAt s f).rlatch,
                wlatch := (pageAt s f).wlatch }).getD f defaultPage
            = { data := 0, page_id := INVALID_PAGE_ID, pin_count := 0,
                is_dirty := false, rlatch := (pageAt s f).rlatch,
                wlatch := (pageAt s f).wlatch }
        simp [List.getD_eq_getElem?_getD, List.getElem?_set_self, hflen]
    | some node =>
      have hevt : node.is_evictable = true := himpl hle node hlook
      have hq : s.replacer.remove f =
          (none, { s.replacer with
            node_store := aerase s.replacer.node_store f,
            curr_size := s.replacer.curr_size - 1 }) := by
        unfold LRUKReplacer.remove
        rw [if_neg (Nat.not_le.mpr hfr), hlook]
        simp [hevt]
      unfold BufferPoolManager.deletePage
      rw [hf]
      simp only [if_neg hngt, hq, deallocatePage]
      refine ⟨by trivial, by trivial, ?_, by trivial, ?_, ?_⟩
      · show alookup (aerase s.page_table pid) pid = none
        exact alookup_aerase_self _ _ hnd
      · show alookup (aerase s.replacer.node_store f) f = none
        exact alookup_aerase_self _ _ hrnd
      · show (s.pages.set f
              { data := 0, page_id := INVALID_PAGE_ID, pin_count := 0,
                is_dirty := false, rlatch := (pageAt s f).rlatch,
                wlatch := (pageAt s f).wlatch }).getD f defaultPage
            = { data := 0, page_id := INVALID_PAGE_ID, pin_count := 0,
                is_dirty := false, rlatch := (pageAt s f).rlatch,
                wlatch := (pageAt s f).wlatch }
        simp [List.getD_eq_getElem?_getD, List.getElem?_set_self, hflen]

theorem deleteSafe_bpmEx : DeleteSafe bpmEx := by
  intro pid f h
  simp only [bpmEx, alookup] at h
  by_cases hp : (5 : Int) = pid
  · simp [hp] at h
    subst h
    refine ⟨by decide, by decide, ?_⟩
    intro _ node hn
    simp [bpmEx, alookup] at hn
    subst hn
    rfl
  · simp [hp] at h

theorem deletePage_spec_witness :
    (alookup bpmEx.page_table 5 = none →
      bpmEx.deletePage 5 = (none, true, bpmEx)) ∧
    (∀ f, alookup bpmEx.page_table 5 = some f →
      0 < (pageAt bpmEx f).pin_count →
        bpmEx.deletePage 5 = (none, false, bpmEx)) ∧
    (∀ f, alookup bpmEx.page_table 5 = some f →
      (pageAt bpmEx f).pin_count ≤ 0 →
      (bpmEx.deletePage 5).1 = none ∧ (bpmEx.deletePage 5).2.1 = true ∧
      alookup (bpmEx.deletePage 5).2.2.page_table 5 = none ∧
      (bpmEx.deletePage 5).2.2.free_list = bpmEx.free_list ++ [f] ∧
      alookup (bpmEx.deletePage 5).2.2.replacer.node_store f = none ∧
      pageAt (bpmEx.deletePage 5).2.2 f
        = { data := 0, page_id := INVALID_PAGE_ID, pin_count := 0,
            is_dirty := false, rlatch := (pageAt bpmEx f).rlatch,
            wlatch := (pageAt bpmEx f).wlatch }) :=
  deletePage_spec bpmEx 5 (by decide) (by decide) deleteSafe_bpmEx

/-- Buffer pool state with the pool exhausted: the single frame is pinned
and not evictable, so FetchPage fails for any non-resident page. -/
def bpmFull : BufferPoolManager :=
  { pool_size := 1,
    pages := [{ data := 0, page_id := 0, pin_count := 1, is_dirty := false,
                rlatch := 0, wlatch := false }],
    page_table := [(0, 0)],
    free_list := [],
    replacer := { node_store := [(0, { history := [0], is_evictable := false })],
                  current_timestamp := 1, curr_size := 0, replacer_size := 1,
                  k := 2 },
    next_page_id := 1,
    disk := [] }

/-- C9: the claim states the guard factory operations acquire the frame
latch only on a valid page handle and complete without dereferencing an
absent handle; the code instead calls RLatch / WLatch through the pointer
FetchPage returns with no null check, so on pool exhaustion (FetchPage
returns the null handle) the null handle is dereferenced. -/
theorem fetchPageRead_null_deref :
    (bpmFull.fetchPage 1).1 = none ∧
    (bpmFull.fetchPage 1).2.1 = none ∧
    (bpmFull.fetchPageRead 1).1 = some BPMFault.nullDeref ∧
    (bpmFull.fetchPageWrite 1).1 = some BPMFault.nullDeref := by
  refine ⟨rfl, rfl, rfl, rfl⟩

end BusTub
